import Mathlib

/-!
Verification development for the `benchmark` harness of the
nexxia-ai/aigentic-examples repository.

The Go source under `benchmark/` is shallowly embedded below:

* pure Go functions become Lean functions with the same names where Lean
  allows it (`CreateBenchResult`, `filterCapabilities`, `createModel`,
  `runModels`, `generateComparisonReport`);
* interactions with the external aigentic framework (LLM calls, `Agent.Start`,
  `AgentRun.Wait`) are modelled by explicit parameters carrying the externally
  produced outcomes, since those outcomes are inputs from the point of view of
  the code under test;
* `os.Getenv` becomes an explicit environment `Env := String → String`
  (Go returns `""` for unset variables);
* Go `error` values are modelled as `Option String`, where `some s` is a
  non-nil error whose `Error()` method returns `s` and `none` is a nil error;
* `time.Duration` is modelled as the number of nanoseconds (a `Nat`; every
  duration in the benchmark comes from `time.Since`, hence non-negative);
* `os.Exit(1)` becomes an `Except` error carrying the exit code;
* Go `map` values are modelled as association lists with overwriting
  insertion; the unspecified iteration order of a Go map is modelled by
  quantifying over every permutation of the key set.
-/

namespace Aigentic

/-- Tag for the three provider constructor functions in `benchmark/main.go`
(`openAIProvider`, `ollamaProvider`, `geminiProvider`). -/
inductive Provider where
  | openai
  | ollama
  | gemini
deriving DecidableEq, Repr

/-- The `*ai.Model` handle.  The benchmark code only ever reads the
`ModelName` field of a model; the provider tag records which constructor
produced the handle. -/
structure Model where
  ModelName : String
  provider : Provider
deriving DecidableEq, Repr

/-- `core.BenchResult` (benchmark/core, struct `BenchResult`).  `Duration` is
in nanoseconds (Go `time.Duration`).  The `Metadata` field
(`map[string]interface{}`) is omitted: it holds opaque diagnostic values that
no code path of the harness ever reads back, and no claim concerns it. -/
structure BenchResult where
  TestCase : String
  ModelName : String
  Success : Bool
  Duration : Nat
  ResponseSize : Nat
  ErrorMessage : String
deriving DecidableEq, Repr

/-! ### ASCII string helpers

`strings.ToLower`, `strings.EqualFold` and `strings.Contains` from the Go
standard library, restricted to ASCII (every name appearing in the benchmark
registries is ASCII, where Unicode case folding and ASCII case folding
agree). -/

/-- ASCII lower-casing of one character. -/
def lowerChar (c : Char) : Char :=
  if 'A' ≤ c ∧ c ≤ 'Z' then Char.ofNat (c.toNat + 32) else c

/-- ASCII lower-casing of a string (`strings.ToLower` on ASCII input). -/
def lowerStr (s : String) : String :=
  String.mk (s.data.map lowerChar)

/-- `strings.EqualFold` on ASCII input: case-insensitive equality. -/
def EqualFold (a b : String) : Bool :=
  lowerStr a = lowerStr b

/-- Scan of `strContains`: does `needle` occur as a contiguous block of the
haystack character list? -/
def containsAux (needle : List Char) : List Char → Bool
  | [] => needle.isEmpty
  | c :: rest => needle.isPrefixOf (c :: rest) || containsAux needle rest

/-- `strings.Contains haystack needle`: substring membership. -/
def strContains (haystack needle : String) : Bool :=
  containsAux needle.data haystack.data

/-- `strings.HasPrefix s pre`: does `s` start with `pre`? -/
def goHasPref (s pre : String) : Bool :=
  pre.data.isPrefixOf s.data

/-- Scan of `fields`: accumulate the current field (reversed) and emit it at
each whitespace run boundary. -/
def fieldsAux : List Char → List Char → List String
  | [], acc => if acc.isEmpty then [] else [String.mk acc.reverse]
  | c :: rest, acc =>
    if c.isWhitespace then
      if acc.isEmpty then fieldsAux rest []
      else String.mk acc.reverse :: fieldsAux rest []
    else fieldsAux rest (c :: acc)

/-- `strings.Fields`: split on whitespace runs, dropping empty fields. -/
def fields (s : String) : List String :=
  fieldsAux s.data []

/-- Scan of `splitComma`: split the character list at every comma. -/
def splitCommaAux : List Char → List Char → List String
  | [], acc => [String.mk acc.reverse]
  | c :: rest, acc =>
    if c = ',' then String.mk acc.reverse :: splitCommaAux rest []
    else splitCommaAux rest (c :: acc)

/-- `strings.Split s ","`: comma-separated fields (an empty input yields one
empty field, as in Go). -/
def splitComma (s : String) : List String :=
  splitCommaAux s.data []

/-- `strings.TrimSpace` restricted to ASCII whitespace: drop leading and
trailing whitespace characters. -/
def trimSpace (s : String) : String :=
  String.mk (((s.data.dropWhile Char.isWhitespace).reverse.dropWhile
    Char.isWhitespace).reverse)

/-! ### Result construction (`benchmark/core/utils.go`) -/

/-- `core.CreateBenchResult` (benchmark/core/utils.go).  `durNs` is the
elapsed `time.Since(start)` in nanoseconds and `err` the Go error argument
(`some s` = non-nil error with message `s`).  Go initialises missing struct
fields to zero values, so `ErrorMessage` starts out `""` and `Success`
`false`. -/
def CreateBenchResult (testCase : String) (model : Model) (durNs : Nat)
    (response : String) (err : Option String) : BenchResult :=
  let base : BenchResult :=
    { TestCase := testCase
      ModelName := model.ModelName
      Success := false
      Duration := durNs
      ResponseSize := response.utf8ByteSize
      ErrorMessage := "" }
  match err with
  | some e => { base with Success := false, ErrorMessage := e }
  | none => { base with Success := true }

/-- Externally produced outcome of one `aigentic.Agent.Execute` call:
the response text and the (possibly nil) error. -/
structure ExecOutcome where
  response : String
  err : Option String

/-- `core.RunSimpleAgent` (benchmark/core/simple_agent.go) as a function of
the externally produced `Agent.Execute` outcome `ext` and of the elapsed
time `durNs`.  Returns the `(BenchResult, error)` pair of the Go function. -/
def RunSimpleAgent (model : Model) (durNs : Nat) (ext : ExecOutcome) :
    BenchResult × Option String :=
  let response := ext.response
  let base : BenchResult :=
    { TestCase := "SimpleAgent"
      ModelName := model.ModelName
      Success := false
      Duration := durNs
      ResponseSize := response.utf8ByteSize
      ErrorMessage := "" }
  match ext.err with
  | some e => ({ base with Success := false, ErrorMessage := e }, some e)
  | none =>
    if ¬ strContains (lowerStr response) "canberra" then
      let msg := "expected response to contain \x27Canberra\x27, got: " ++ response
      ({ base with Success := false, ErrorMessage := msg }, some msg)
    else
      ({ base with Success := true }, none)

/-- Externally produced outcomes of the three `agent.Start` calls and the
three `AgentRun.Wait` calls made by `core.RunConcurrentRuns` (the Go `runs`
slice has exactly three fixed entries).  `start<i> = some e` means the i-th
`Start` returned a non-nil error `e`; `wait<i> = .error e` means the i-th
`Wait` returned a non-nil error, `.ok r` that it returned response `r`. -/
structure ConcExt where
  start1 : Option String
  start2 : Option String
  start3 : Option String
  wait1 : Except String String
  wait2 : Except String String
  wait3 : Except String String

/-- The per-response validation loop at the end of `core.RunConcurrentRuns`:
for each response in order, first the `Error:` substring check, then the
emptiness check; the first failing check yields its message. -/
def checkResponses : List String → Option String
  | [] => none
  | r :: rest =>
    if strContains r "Error:" then some "Run should not contain error"
    else if r = "" then some "Run should have non-empty response"
    else checkResponses rest

/-- `core.RunConcurrentRuns` (benchmark/core/concurrent_runs.go) as a function
of the externally produced start/wait outcomes `ext` and the elapsed time
`durNs`.  Mirrors the Go control flow: start the three runs aborting on the
first `Start` error, wait on each aborting on the first `Wait` error, then run
the validation cascade; validation failures return a failed record together
with a nil error. -/
def RunConcurrentRuns (model : Model) (durNs : Nat) (ext : ConcExt) :
    BenchResult × Option String :=
  let startFail := fun (e : String) =>
    let r := CreateBenchResult "ConcurrentRuns" model durNs "" (some e)
    ({ r with ErrorMessage := "Failed to start run: " ++ e }, some e)
  let waitFail := fun (e : String) =>
    let r := CreateBenchResult "ConcurrentRuns" model durNs "" (some e)
    ({ r with ErrorMessage := "Wait for run failed: " ++ e }, some e)
  let validationFail := fun (msg : String) =>
    let r := CreateBenchResult "ConcurrentRuns" model durNs "" none
    ({ r with Success := false, ErrorMessage := msg }, none)
  match ext.start1 with
  | some e => startFail e
  | none =>
  match ext.start2 with
  | some e => startFail e
  | none =>
  match ext.start3 with
  | some e => startFail e
  | none =>
  match ext.wait1 with
  | .error e => waitFail e
  | .ok r1 =>
  match ext.wait2 with
  | .error e => waitFail e
  | .ok r2 =>
  match ext.wait3 with
  | .error e => waitFail e
  | .ok r3 =>
  let responses := [r1, r2, r3]
  if responses.length ≠ 3 then
    validationFail "Should have responses for all runs"
  else
    let foundToolCall := responses.any (fun r => strContains r "Nexxia")
    if ¬ foundToolCall then
      validationFail "Should have found a response with tool call result"
    else
      match checkResponses responses with
      | some msg => validationFail msg
      | none =>
        let allResponses := String.intercalate " | " responses
        (CreateBenchResult "ConcurrentRuns" model durNs allResponses none, none)

/-! ### Test case registry and `filterCapabilities` (benchmark/main.go) -/

/-- `Capability` (benchmark/main.go): a registry entry pairing a name with
the run function.  The optional `EvalFunction` field is omitted: it is `nil`
for every entry of the source registry and only consulted by the `-eval`
mode, which no claim concerns.  The run function returns the Go
`(core.BenchResult, error)` pair. -/
structure Capability where
  Name : String
  RunFunction : Model → BenchResult × Option String

/-- The `Name` column of the source registry `capabilities`
(benchmark/main.go), in registration order. -/
def capabilityNames : List String :=
  ["SimpleAgent", "ToolIntegration", "TeamCoordination", "FileAttachments",
   "MultiAgentChain", "MultiAgentVariations", "ConcurrentRuns", "Streaming",
   "StreamingWithTools", "MemoryPersistence"]

/-- A process exit triggered via `os.Exit`; carries the exit code and, for the
no-matching-tests path, the list of available test names printed before
exiting. -/
inductive ProcExit where
  | exit (code : Nat)
  | noMatch (available : List String) (code : Nat)
deriving DecidableEq, Repr

/-- The comma-split-and-trim of the `-test` flag value
(`strings.Split(testsFlag, ",")` followed by `strings.TrimSpace` on each
entry, benchmark/main.go `filterCapabilities`). -/
def parseTestNames (testsFlag : String) : List String :=
  (splitComma testsFlag).map trimSpace

/-- The nested filtering loop of `filterCapabilities`: keep each registry
entry whose name matches (case-insensitively) some requested name; the Go
inner loop with `break` is the `List.any` scan. -/
def filterCaps : List Capability → List String → List Capability
  | [], _ => []
  | c :: rest, names =>
    if names.any (fun n => EqualFold c.Name n) then
      c :: filterCaps rest names
    else
      filterCaps rest names

/-- `filterCapabilities` (benchmark/main.go).  The Go function reads the
global registry `capabilities`; it is taken here as the parameter `caps` so
that the registry-level claims can quantify over registry contents.  An empty
flag returns the registry unchanged; a non-empty flag with no matches prints
the available test names and exits with status 1. -/
def filterCapabilities (caps : List Capability) (testsFlag : String) :
    Except ProcExit (List Capability) :=
  if testsFlag = "" then
    .ok caps
  else
    let testNames := parseTestNames testsFlag
    let filtered := filterCaps caps testNames
    if filtered.isEmpty then
      .error (.noMatch (caps.map Capability.Name) 1)
    else
      .ok filtered

/-! ### Model registry and `createModel` (benchmark/main.go) -/

/-- `ModelDesc` (benchmark/main.go): a model-registry entry.  The
`ProviderFunc` field is one of the three named provider functions, recorded
as the `Provider` tag interpreted by `applyProvider`. -/
structure ModelDesc where
  Name : String
  Provider : Provider
deriving DecidableEq, Repr

/-- The source registry `modelsTable` (benchmark/main.go), in order. -/
def modelsTable : List ModelDesc :=
  [⟨"gpt-4o-mini", .openai⟩, ⟨"gpt-4o", .openai⟩, ⟨"gpt", .openai⟩,
   ⟨"qwen", .ollama⟩, ⟨"llama3.2", .ollama⟩, ⟨"gemma", .ollama⟩,
   ⟨"deepseek", .ollama⟩, ⟨"gemini", .gemini⟩]

/-- The process environment (`os.Getenv`); Go returns `""` for unset
variables. -/
def Env : Type := String → String

/-- `openAIProvider` (benchmark/main.go): nil when `OPENAI_API_KEY` is unset
or empty, otherwise the handle built by the external `openai.NewModel`. -/
def openAIProvider (env : Env) (modelName : String) : Option Model :=
  if env "OPENAI_API_KEY" = "" then none else some ⟨modelName, .openai⟩

/-- `ollamaProvider` (benchmark/main.go): no credential guard; the external
`ollama.NewModel` constructs a handle unconditionally. -/
def ollamaProvider (_env : Env) (modelName : String) : Option Model :=
  some ⟨modelName, .ollama⟩

/-- `geminiProvider` (benchmark/main.go): nil when `GOOGLE_API_KEY` is unset
or empty. -/
def geminiProvider (env : Env) (modelName : String) : Option Model :=
  if env "GOOGLE_API_KEY" = "" then none else some ⟨modelName, .gemini⟩

/-- Dispatch a `Provider` tag to its provider function. -/
def applyProvider : Provider → Env → String → Option Model
  | .openai, env, name => openAIProvider env name
  | .ollama, env, name => ollamaProvider env name
  | .gemini, env, name => geminiProvider env name

/-- The first scanning loop of `createModel`: first registry entry whose name
is exactly the requested name. -/
def scanExact : List ModelDesc → String → Option ModelDesc
  | [], _ => none
  | d :: ds, name => if d.Name = name then some d else scanExact ds name

/-- The second scanning loop of `createModel`: first registry entry whose name
is a string-prefix of the requested name
(`strings.HasPrefix(modelName, modelDesc.Name)`). -/
def scanPrefixMatch : List ModelDesc → String → Option ModelDesc
  | [], _ => none
  | d :: ds, name =>
    if goHasPref name d.Name then some d else scanPrefixMatch ds name

/-- Which registry entry `createModel` resolves a name to: the exact scan,
falling back to the prefix scan. -/
def resolveDesc (table : List ModelDesc) (name : String) : Option ModelDesc :=
  match scanExact table name with
  | some d => some d
  | none => scanPrefixMatch table name

/-- `createModel` (benchmark/main.go): exact scan, then prefix scan, each
invoking the matched entry's provider function with the requested name;
`none` (Go nil) when neither scan matches. -/
def createModel (env : Env) (modelName : String) : Option Model :=
  match scanExact modelsTable modelName with
  | some d => applyProvider d.Provider env modelName
  | none =>
    match scanPrefixMatch modelsTable modelName with
    | some d => applyProvider d.Provider env modelName
    | none => none

/-! ### Runner (`runModels`, benchmark/main.go) -/

/-- One per-test-case console progress line of `runModels`: the test-case
name, the glyph chosen from the error value, and the duration printed inside
the parentheses (the textual `%v` rendering of the `time.Duration` is
injective in the nanosecond count and is not re-modelled). -/
structure ConsoleEntry where
  name : String
  glyph : String
  durNs : Nat
deriving DecidableEq, Repr

/-- The glyph printed by `runModels` for one test case: `❌ FAILED` when the
run function returned a non-nil error, `✅ SUCCESS` otherwise. -/
def glyphOf : Option String → String
  | some _ => "❌ FAILED"
  | none => "✅ SUCCESS"

/-- The console entry `runModels` prints after one test case completes. -/
def consoleEntryFor (c : Capability) (result : BenchResult)
    (err : Option String) : ConsoleEntry :=
  ⟨c.Name, glyphOf err, result.Duration⟩

/-- The inner loop of `runModels` over the filtered capabilities for one
model: run each test case, append its record to `results`, and print a
progress line; an error from the run function does not leave the loop. -/
def runModelLoop (m : Model) : List Capability →
    List BenchResult × List ConsoleEntry
  | [] => ([], [])
  | c :: rest =>
    let out := c.RunFunction m
    let entry := consoleEntryFor c out.1 out.2
    let tail := runModelLoop m rest
    (out.1 :: tail.1, entry :: tail.2)

/-- `runModels` (benchmark/main.go): the nested model × test-case loop.
Returns the `allResults` matrix (one row of records per model, in order) and
the concatenated console progress entries. -/
def runModels : List Model → List Capability →
    List (List BenchResult) × List ConsoleEntry
  | [], _ => ([], [])
  | m :: ms, capabilitiesToRun =>
    let row := runModelLoop m capabilitiesToRun
    let rest := runModels ms capabilitiesToRun
    (row.1 :: rest.1, row.2 ++ rest.2)

/-! ### `main` model-resolution pipeline (benchmark/main.go) -/

/-- The model-resolution loop of `main` (benchmark/main.go lines 118-130):
resolve each requested name in order, printing a diagnostic and exiting with
status 1 at the first name for which `createModel` returns nil. -/
def resolveModels (env : Env) : List String → Except ProcExit (List Model)
  | [] => .ok []
  | name :: rest =>
    match createModel env name with
    | none => .error (.exit 1)
    | some m =>
      match resolveModels env rest with
      | .error e => .error e
      | .ok ms => .ok (m :: ms)

/-- The non-`-eval` pipeline of `main` (benchmark/main.go): usage check,
joining and re-splitting the positional arguments, model resolution, registry
filtering, then `runModels`.  The `-eval` branch diverges only after this
whole prefix and is not modelled (no claim concerns its internals). -/
def runMain (env : Env) (testsFlag : String) (args : List String)
    (caps : List Capability) :
    Except ProcExit (List (List BenchResult) × List ConsoleEntry) :=
  if args.length < 1 then
    .error (.exit 1)
  else
    let modelNames := fields (String.intercalate " " args)
    match resolveModels env modelNames with
    | .error e => .error e
    | .ok models =>
      if models.isEmpty then
        .error (.exit 1)
      else
        match filterCapabilities caps testsFlag with
        | .error e => .error e
        | .ok filtered => .ok (runModels models filtered)

/-! ### Report generator (`generateComparisonReport`, benchmark/main.go)

Go maps become association lists with overwriting insertion
(`mapInsert`/`groupsInsert`); the unspecified iteration order of the
`allModels` and `allCapabilities` map keys is a parameter of the rendering
functions, constrained to be a permutation of the key set (`ValidOrders`). -/

/-- Overwriting insertion into a string-keyed association list
(Go `m[k] = v`). -/
def mapInsert (k : String) (v : α) : List (String × α) → List (String × α)
  | [] => [(k, v)]
  | (k', v') :: rest =>
    if k' = k then (k, v) :: rest else (k', v') :: mapInsert k v rest

/-- First-match lookup in a string-keyed association list (Go `m[k]`). -/
def assocFind (k : String) : List (String × α) → Option α
  | [] => none
  | (k', v) :: rest => if k' = k then some v else assocFind k rest

/-- The nested `testGroups` map of `generateComparisonReport`:
test-case name → (model name → record). -/
def Groups : Type := List (String × List (String × BenchResult))

/-- `testGroups[r.TestCase][r.ModelName] = r`, creating the inner map when
absent (the Go nil-map check). -/
def groupsInsert (r : BenchResult) (g : Groups) : Groups :=
  match assocFind r.TestCase g with
  | none => mapInsert r.TestCase [(r.ModelName, r)] g
  | some inner => mapInsert r.TestCase (mapInsert r.ModelName r inner) g

/-- Build `testGroups` from the `allResults` matrix, iterating rows and
records in order as the Go loops do. -/
def buildGroups (results : List (List BenchResult)) : Groups :=
  results.foldl (fun g row => row.foldl (fun g' r => groupsInsert r g') g) []

/-- Lookup of the record for one (test case, model) pair in `testGroups`. -/
def lookupGroups (g : Groups) (tc m : String) : Option BenchResult :=
  (assocFind tc g).bind (assocFind m)

/-- The distinct model names of the matrix in first-seen order: the key set
of the Go `allModels` map. -/
def distinctModels (results : List (List BenchResult)) : List String :=
  results.foldl
    (fun acc row => row.foldl
      (fun acc' r => if r.ModelName ∈ acc' then acc' else acc' ++ [r.ModelName])
      acc)
    []

/-- The distinct test-case names of the matrix in first-seen order: the key
set of the Go `allCapabilities` map. -/
def distinctCaps (results : List (List BenchResult)) : List String :=
  results.foldl
    (fun acc row => row.foldl
      (fun acc' r => if r.TestCase ∈ acc' then acc' else acc' ++ [r.TestCase])
      acc)
    []

/-- `mo`/`co` are possible Go-map iteration orders for the report's model
columns and test-case row groups: any permutation of the respective key
sets. -/
def ValidOrders (results : List (List BenchResult))
    (mo co : List String) : Prop :=
  mo.Perm (distinctModels results) ∧ co.Perm (distinctCaps results)

/-- `%.1f` rendering of `ns` nanoseconds as seconds: the number of tenths of
a second, rounding half to even.  (The Go source computes
`result.Duration.Seconds()` as a `float64` and formats it with
`fmt.Sprintf("%.1fs", ...)`; for the sub-52-bit nanosecond counts produced by
`time.Since` this is decimal rounding of the exact value, idealised here over
the exact rational.) -/
def durTenths (ns : Nat) : Nat :=
  let q := ns / 100000000
  let r := ns % 100000000
  if 2 * r > 100000000 then q + 1
  else if 2 * r < 100000000 then q
  else if q % 2 = 0 then q else q + 1

/-- The `%.1fs` duration string of the timing cells. -/
def fmtSeconds1 (ns : Nat) : String :=
  toString (durTenths ns / 10) ++ "." ++ toString (durTenths ns % 10) ++ "s"

/-- The status cell appended for one (test case, model) pair
(`generateComparisonReport`, success/failure row loop body). -/
def statusCell (g : Groups) (tc m : String) : String :=
  match lookupGroups g tc m with
  | none => " | N/A"
  | some r => if r.Success then " | ✅ Success" else " | ❌ Failure"

/-- The timing cell appended for one (test case, model) pair
(`generateComparisonReport`, timing row loop body). -/
def timingCell (g : Groups) (tc m : String) : String :=
  match lookupGroups g tc m with
  | none => " | N/A"
  | some r => " | " ++ fmtSeconds1 r.Duration

/-- The status row emitted for one test case. -/
def statusRow (g : Groups) (tc : String) (mo : List String) : String :=
  "| " ++ tc ++ String.join (mo.map (statusCell g tc)) ++ " |\n"

/-- The timing row emitted for one test case (label suffixed `(timing)`). -/
def timingRow (g : Groups) (tc : String) (mo : List String) : String :=
  "| " ++ tc ++ " (timing)" ++ String.join (mo.map (timingCell g tc)) ++ " |\n"

/-- The Markdown body below the timestamp line: header row, separator row,
then the two rows per test case. -/
def reportBody (results : List (List BenchResult))
    (mo co : List String) : String :=
  let g := buildGroups results
  let header :=
    "| Capability" ++ String.join (mo.map (fun m => " | " ++ m)) ++ " |\n"
  let sep := "|---" ++ String.join (mo.map (fun _ => "|---")) ++ "|\n"
  let rows := String.join (co.map (fun tc => statusRow g tc mo ++ timingRow g tc mo))
  header ++ sep ++ rows

/-- `generateComparisonReport` (benchmark/main.go) as the Markdown text it
writes to `comparison_report.md`.  `ts` is the formatted `time.Now()`
timestamp and `mo`/`co` the Go-map iteration orders actually encountered for
the model columns and test-case row groups. -/
def generateComparisonReport (results : List (List BenchResult))
    (ts : String) (mo co : List String) : String :=
  "# Model Comparison Report\n\n" ++ "Generated on: " ++ ts ++ "\n\n" ++
    reportBody results mo co

/-- The last record of the flattened matrix, in iteration order, for one
(test case, model) pair — the record that a Go-map overwrite sequence leaves
behind for that pair. -/
def findRecordLast (results : List (List BenchResult)) (tc m : String) :
    Option BenchResult :=
  (results.flatten.reverse).find? (fun r => r.TestCase = tc ∧ r.ModelName = m)

/-! ### Concrete instances used by the claim theorems and their witnesses -/

/-- A concrete registry instance carrying the source registry's capability
names, used as a test input to the registry-level theorems; name-based
filtering never invokes the run functions, so an arbitrary stand-in run
function is supplied. -/
def sampleRegistry : List Capability :=
  capabilityNames.map
    (fun n => ⟨n, fun m => (CreateBenchResult n m 0 "" none, none)⟩)

/-- Concrete runner input for the C2 witness: one model. -/
def wModels : List Model := [⟨"m1", .ollama⟩]

/-- Concrete capability list for the C2 witness: two test cases, the first
of which returns an error. -/
def wCaps : List Capability :=
  [⟨"A", fun m => (CreateBenchResult "A" m 5 "" (some "boom"), some "boom")⟩,
   ⟨"B", fun m => (CreateBenchResult "B" m 7 "ok" none, none)⟩]

/-- Concrete one-record matrix for the C5 witness: test case `A`, model `M`,
success, 1.44 s. -/
def wResults : List (List BenchResult) :=
  [[⟨"A", "M", true, 1440000000, 2, ""⟩]]

/-- Concrete two-model matrix for the C1 counterexample. -/
def c1Results : List (List BenchResult) :=
  [[⟨"A", "M1", true, 700000000, 1, ""⟩], [⟨"A", "M2", true, 6500000000, 1, ""⟩]]

/-- Concrete external behavior for C10: all three runs start and complete,
but no response contains the tool result `Nexxia`. -/
def c10Ext : ConcExt := ⟨none, none, none, .ok "Paris", .ok "4", .ok "hello"⟩

/-- Concrete model handle for C10. -/
def c10Model : Model := ⟨"gpt-4o", .openai⟩

/-- Concrete capability for C10 wrapping `RunConcurrentRuns` under the
external behavior `c10Ext`. -/
def c10Cap : Capability :=
  ⟨"ConcurrentRuns", fun mm => RunConcurrentRuns mm 1400000000 c10Ext⟩

/-! ### Helper lemmas -/

/-- A string with a non-empty prefix is non-empty. -/
theorem str_append_ne_empty (s t : String) (h : s ≠ "") : s ++ t ≠ "" := by
  intro hc
  apply h
  have hd := congrArg String.data hc
  rw [String.data_append] at hd
  have h1 : s.data = [] := (List.append_eq_nil.mp hd).1
  cases s
  simpa [String.ext_iff] using h1

/-- Every message produced by the response-validation loop of
`RunConcurrentRuns` is non-empty. -/
theorem checkResponses_ne_empty :
    ∀ (l : List String) (msg : String), checkResponses l = some msg → msg ≠ "" := by
  intro l
  induction l with
  | nil => intro msg h; simp [checkResponses] at h
  | cons r rest ih =>
    intro msg h
    simp only [checkResponses] at h
    split at h
    · cases h; decide
    · split at h
      · cases h; decide
      · exact ih msg h

/-- The exact-match scan is the first-match search over the registry. -/
theorem scanExact_eq_find? (table : List ModelDesc) (name : String) :
    scanExact table name = table.find? (fun d => d.Name == name) := by
  induction table with
  | nil => rfl
  | cons d ds ih =>
    by_cases h : d.Name = name
    · rw [List.find?_cons_of_pos _ (by simp [h])]
      simp [scanExact, h]
    · rw [List.find?_cons_of_neg _ (by simp [h])]
      simp only [scanExact, if_neg h]
      exact ih

/-- The prefix-match scan is the first-match search over the registry. -/
theorem scanPrefixMatch_eq_find? (table : List ModelDesc) (name : String) :
    scanPrefixMatch table name = table.find? (fun d => goHasPref name d.Name) := by
  induction table with
  | nil => rfl
  | cons d ds ih =>
    by_cases h : goHasPref name d.Name = true
    · simp [scanPrefixMatch, List.find?, h]
    · have h' : goHasPref name d.Name = false := by simpa using h
      simp [scanPrefixMatch, List.find?, h', ih]

/-- The filtering loop of `filterCapabilities` is the order-preserving
filter of the registry. -/
theorem filterCaps_eq_filter (caps : List Capability) (names : List String) :
    filterCaps caps names =
      caps.filter (fun c => names.any (fun n => EqualFold c.Name n)) := by
  induction caps with
  | nil => rfl
  | cons c rest ih =>
    simp only [filterCaps, List.filter]
    by_cases h : names.any (fun n => EqualFold c.Name n)
    · simp [h, ih]
    · simp [h, ih]

/-- Case-insensitive matching depends only on the lower-cased requested
names. -/
theorem any_equalFold_congr (s : String) :
    ∀ (n₁ n₂ : List String), n₁.map lowerStr = n₂.map lowerStr →
      n₁.any (fun n => EqualFold s n) = n₂.any (fun n => EqualFold s n)
  | [], [], _ => rfl
  | [], _ :: _, h => by simp at h
  | _ :: _, [], h => by simp at h
  | a :: t, b :: t', h => by
    rw [List.map_cons, List.map_cons, List.cons.injEq] at h
    rw [List.any_cons, List.any_cons, any_equalFold_congr s t t' h.2]
    have he : EqualFold s a = EqualFold s b := by
      unfold EqualFold
      rw [h.1]
    rw [he]

/-- The filtering loop depends only on the lower-cased requested names. -/
theorem filterCaps_congr_lower (caps : List Capability) (n₁ n₂ : List String)
    (h : n₁.map lowerStr = n₂.map lowerStr) :
    filterCaps caps n₁ = filterCaps caps n₂ := by
  induction caps with
  | nil => rfl
  | cons c rest ih =>
    simp only [filterCaps]
    rw [any_equalFold_congr c.Name n₁ n₂ h, ih]

/-- Lookup after an overwriting insertion: the inserted key returns the new
value, every other key is unaffected. -/
theorem assocFind_mapInsert (k k' : String) (v : α) (l : List (String × α)) :
    assocFind k' (mapInsert k v l) =
      if k = k' then some v else assocFind k' l := by
  induction l with
  | nil =>
    by_cases h : k = k'
    · subst h
      simp [mapInsert, assocFind]
    · simp [mapInsert, assocFind, h]
  | cons p rest ih =>
    obtain ⟨pk, pv⟩ := p
    by_cases h1 : pk = k
    · subst h1
      simp only [mapInsert, if_pos rfl, assocFind]
      by_cases h2 : pk = k'
      · simp [h2]
      · simp [h2]
    · simp only [mapInsert, if_neg h1, assocFind, ih]
      by_cases h2 : pk = k'
      · subst h2
        have hkp : ¬ (k = pk) := fun hh => h1 hh.symm
        simp [hkp]
      · simp [h2]

/-- Pair-level lookup after one `testGroups` insertion. -/
theorem lookupGroups_groupsInsert (r : BenchResult) (g : Groups) (tc m : String) :
    lookupGroups (groupsInsert r g) tc m =
      if r.TestCase = tc ∧ r.ModelName = m then some r
      else lookupGroups g tc m := by
  cases hfind : assocFind r.TestCase g with
  | none =>
    simp only [lookupGroups, groupsInsert, hfind, assocFind_mapInsert]
    by_cases htc : r.TestCase = tc
    · subst htc
      simp only [if_pos rfl, hfind]
      by_cases hm : r.ModelName = m
      · simp [assocFind, hm, hfind]
      · simp [assocFind, hm, hfind]
    · simp [htc]
  | some inner =>
    simp only [lookupGroups, groupsInsert, hfind, assocFind_mapInsert]
    by_cases htc : r.TestCase = tc
    · subst htc
      simp only [if_pos rfl, hfind]
      by_cases hm : r.ModelName = m
      · simp [assocFind_mapInsert, hm, hfind]
      · simp [assocFind_mapInsert, hm, hfind]
    · simp [htc]

/-- Folding `groupsInsert` over a flat record list leaves, for each
(test case, model) pair, exactly the last record for that pair. -/
theorem lookupGroups_foldl (l : List BenchResult) :
    ∀ (g : Groups) (tc m : String),
      lookupGroups (l.foldl (fun g' r => groupsInsert r g') g) tc m =
        match l.reverse.find? (fun r => r.TestCase = tc ∧ r.ModelName = m) with
        | some r => some r
        | none => lookupGroups g tc m := by
  induction l with
  | nil => intro g tc m; simp
  | cons c t ih =>
    intro g tc m
    rw [List.foldl_cons, ih, List.reverse_cons, List.find?_append]
    cases hrev : t.reverse.find? (fun r => r.TestCase = tc ∧ r.ModelName = m) with
    | some r => simp [Option.or]
    | none =>
      simp only [Option.or, List.find?]
      by_cases hc : c.TestCase = tc ∧ c.ModelName = m
      · simp [hc, lookupGroups_groupsInsert]
      · have : (decide (c.TestCase = tc) && decide (c.ModelName = m)) = false := by
          simpa [Bool.and_eq_true, decide_eq_true_eq] using hc
        simp [this, lookupGroups_groupsInsert, hc]

/-- `testGroups` lookup agrees with the last matching record of the
flattened matrix. -/
theorem lookupGroups_buildGroups (results : List (List BenchResult))
    (tc m : String) :
    lookupGroups (buildGroups results) tc m = findRecordLast results tc m := by
  have hflat : buildGroups results =
      (results.flatten).foldl (fun g' r => groupsInsert r g') [] := by
    rw [buildGroups, List.foldl_flatten]
  rw [hflat, lookupGroups_foldl, findRecordLast]
  cases (results.flatten.reverse).find? (fun r => r.TestCase = tc ∧ r.ModelName = m) with
  | some r => simp
  | none => simp [lookupGroups, assocFind]

/-- The matrix produced by `runModels` is the nested map of run functions
over models and capabilities. -/
theorem runModels_matrix (models : List Model) (caps : List Capability) :
    (runModels models caps).1 =
      models.map (fun m => caps.map (fun c => (c.RunFunction m).1)) := by
  induction models with
  | nil => rfl
  | cons m ms ih =>
    have hrow : ∀ (cs : List Capability),
        (runModelLoop m cs).1 = cs.map (fun c => (c.RunFunction m).1) := by
      intro cs
      induction cs with
      | nil => rfl
      | cons c rest ihc => simp [runModelLoop, ihc]
    simp [runModels, ih, hrow]

/-- The console entries produced by `runModelLoop` pair each capability with
the glyph of its returned error value. -/
theorem runModelLoop_console (m : Model) (caps : List Capability) :
    (runModelLoop m caps).2 =
      caps.map (fun c => consoleEntryFor c (c.RunFunction m).1 (c.RunFunction m).2) := by
  induction caps with
  | nil => rfl
  | cons c rest ih => simp [runModelLoop, ih]

/-- Folding string concatenation from an arbitrary accumulator. -/
theorem foldl_str_append (l : List String) :
    ∀ (a : String), l.foldl (fun x y => x ++ y) a =
      a ++ l.foldl (fun x y => x ++ y) "" := by
  induction l with
  | nil => intro a; simp
  | cons s t ih =>
    intro a
    rw [List.foldl_cons, List.foldl_cons, ih (a ++ s), ih ("" ++ s),
      String.empty_append, String.append_assoc]

/-- `String.join` distributes over list append. -/
theorem join_append (l₁ l₂ : List String) :
    String.join (l₁ ++ l₂) = String.join l₁ ++ String.join l₂ := by
  simp only [String.join, List.foldl_append]
  rw [foldl_str_append l₂ (List.foldl (fun x y => x ++ y) "" l₁)]

/-- `String.join` over a cons cell. -/
theorem join_cons (s : String) (t : List String) :
    String.join (s :: t) = s ++ String.join t := by
  simp only [String.join, List.foldl_cons, String.empty_append]
  exact foldl_str_append t s

/-! ### Claim theorems -/

/-- C7: For every registry contents, `Filter` applied to an empty
requestedNames list (an empty `-test` flag) returns the full registry
unchanged, in its original registration order. -/
theorem filter_empty_returns_registry (caps : List Capability) :
    filterCapabilities caps "" = .ok caps := by
  simp [filterCapabilities]

/-- C6: For every non-empty `-test` flag none of whose entries
case-insensitively matches any registered test-case name, `filterCapabilities`
takes the no-matching-tests termination path: it reports the available test
names and exits with status 1; and for a non-empty flag it never returns an
empty-but-successful result. -/
theorem filter_no_match_terminates (caps : List Capability) (flag : String)
    (h1 : flag ≠ "")
    (h2 : ∀ c ∈ caps, ∀ n ∈ parseTestNames flag, EqualFold c.Name n = false) :
    filterCapabilities caps flag =
      .error (.noMatch (caps.map Capability.Name) 1) ∧
    ∀ flag', flag' ≠ "" → filterCapabilities caps flag' ≠ .ok [] := by
  constructor
  · have hnil : filterCaps caps (parseTestNames flag) = [] := by
      rw [filterCaps_eq_filter]
      rw [List.filter_eq_nil_iff]
      intro c hc
      simp only [List.any_eq_true, not_exists]
      intro n hn
      exact absurd hn.2 (by simp [h2 c hc n hn.1])
    simp [filterCapabilities, h1, hnil]
  · intro flag' hflag' hok
    simp only [filterCapabilities, if_neg hflag'] at hok
    by_cases hemp : (filterCaps caps (parseTestNames flag')).isEmpty
    · simp [hemp] at hok
    · rw [if_neg hemp] at hok
      have h := Except.ok.inj hok
      exact hemp (List.isEmpty_iff.mpr h)

/-- C6 witness: the flag `"NoSuchTest"` matches nothing in the source
registry. -/
theorem filter_no_match_terminates_witness :
    filterCapabilities sampleRegistry "NoSuchTest" =
      .error (.noMatch (sampleRegistry.map Capability.Name) 1) ∧
    ∀ flag', flag' ≠ "" → filterCapabilities sampleRegistry flag' ≠ .ok [] :=
  filter_no_match_terminates sampleRegistry "NoSuchTest" (by decide) (by decide)

/-- C8: For every `-test` flag with at least one case-insensitive match,
`filterCapabilities` returns the ordered subsequence of registry descriptors
whose names match some requested name, in the registry's original order (a
sublist of the registry); and the outcome depends only on the lower-cased
requested names, so `Filter(["simpleagent"])` and `Filter(["SimpleAgent"])`
return identical results. -/
theorem filter_case_insensitive_registry_order (caps : List Capability)
    (flag : String) (h1 : flag ≠ "")
    (h2 : (filterCaps caps (parseTestNames flag)).isEmpty = false) :
    filterCapabilities caps flag =
      .ok (caps.filter
        (fun c => (parseTestNames flag).any (fun n => EqualFold c.Name n))) ∧
    (caps.filter
      (fun c => (parseTestNames flag).any (fun n => EqualFold c.Name n))).Sublist
      caps ∧
    ∀ flag', flag' ≠ "" →
      (parseTestNames flag').map lowerStr = (parseTestNames flag).map lowerStr →
      filterCapabilities caps flag' = filterCapabilities caps flag := by
  refine ⟨?_, List.filter_sublist caps, ?_⟩
  · simp only [filterCapabilities, if_neg h1, h2]
    rw [filterCaps_eq_filter]
    simp
  · intro flag' hflag' hlow
    have hfc : filterCaps caps (parseTestNames flag') =
        filterCaps caps (parseTestNames flag) :=
      filterCaps_congr_lower caps _ _ hlow
    simp only [filterCapabilities, if_neg h1, if_neg hflag', hfc]

/-- C8 witness: `Filter(["SimpleAgent"])` on the source registry has a match,
and `Filter(["simpleagent"])` returns the identical result. -/
theorem filter_case_insensitive_registry_order_witness :
    filterCapabilities sampleRegistry "SimpleAgent" =
      .ok (sampleRegistry.filter
        (fun c => (parseTestNames "SimpleAgent").any
          (fun n => EqualFold c.Name n))) ∧
    (sampleRegistry.filter
      (fun c => (parseTestNames "SimpleAgent").any
        (fun n => EqualFold c.Name n))).Sublist sampleRegistry ∧
    ∀ flag', flag' ≠ "" →
      (parseTestNames flag').map lowerStr =
        (parseTestNames "SimpleAgent").map lowerStr →
      filterCapabilities sampleRegistry flag' =
        filterCapabilities sampleRegistry "SimpleAgent" :=
  filter_case_insensitive_registry_order sampleRegistry "SimpleAgent"
    (by decide) (by decide)

/-- C4: For every model name, `createModel` first scans the registry in
order for an exact name match (the first-match search) and invokes that
descriptor's constructor; only when no exact match exists does it scan again
for the first descriptor whose name is a string-prefix of the requested name;
when neither scan matches it returns nil.  When an exact match exists the
selected descriptor's name equals the requested name.  In particular
`createModel "gpt-4o"` selects the exact `"gpt-4o"` entry, not the prefix
entries `"gpt-4o-mini"` or `"gpt"`. -/
theorem resolve_prefers_exact_match (name : String) (env : Env) :
    scanExact modelsTable name = modelsTable.find? (fun d => d.Name == name) ∧
    scanPrefixMatch modelsTable name =
      modelsTable.find? (fun d => goHasPref name d.Name) ∧
    (∀ d, scanExact modelsTable name = some d →
      d ∈ modelsTable ∧ d.Name = name ∧
      createModel env name = applyProvider d.Provider env name ∧
      resolveDesc modelsTable name = some d) ∧
    (scanExact modelsTable name = none →
      (∀ d, scanPrefixMatch modelsTable name = some d →
        d ∈ modelsTable ∧ goHasPref name d.Name = true ∧
        createModel env name = applyProvider d.Provider env name ∧
        resolveDesc modelsTable name = some d) ∧
      (scanPrefixMatch modelsTable name = none → createModel env name = none)) ∧
    ((∃ d ∈ modelsTable, d.Name = name) →
      ∃ d, scanExact modelsTable name = some d ∧ d.Name = name) ∧
    scanExact modelsTable "gpt-4o" = some ⟨"gpt-4o", Provider.openai⟩ := by
  refine ⟨scanExact_eq_find? _ _, scanPrefixMatch_eq_find? _ _, ?_, ?_, ?_, by decide⟩
  · intro d hd
    have hfind : modelsTable.find? (fun d => d.Name == name) = some d := by
      rw [← scanExact_eq_find?]; exact hd
    refine ⟨List.mem_of_find?_eq_some hfind, ?_, ?_, ?_⟩
    · have := List.find?_some hfind
      simpa using this
    · simp [createModel, hd]
    · simp [resolveDesc, hd]
  · intro hnone
    constructor
    · intro d hd
      have hfind : modelsTable.find? (fun d => goHasPref name d.Name) = some d := by
        rw [← scanPrefixMatch_eq_find?]; exact hd
      refine ⟨List.mem_of_find?_eq_some hfind,
        by have := List.find?_some hfind; simpa using this, ?_, ?_⟩
      · simp [createModel, hnone, hd]
      · simp [resolveDesc, hnone, hd]
    · intro hpnone
      simp [createModel, hnone, hpnone]
  · intro ⟨d, hmem, hname⟩
    have hsome : (modelsTable.find? (fun d => d.Name == name)).isSome := by
      rw [List.find?_isSome]
      exact ⟨d, hmem, by simp [hname]⟩
    rw [← scanExact_eq_find?] at hsome
    obtain ⟨d', hd'⟩ := Option.isSome_iff_exists.mp hsome
    refine ⟨d', hd', ?_⟩
    have hfind : modelsTable.find? (fun d => d.Name == name) = some d' := by
      rw [← scanExact_eq_find?]; exact hd'
    have := List.find?_some hfind
    simpa using this

/-- C4 witness: resolving `"gpt-4o"` (with the OpenAI key set) goes through
the exact `"gpt-4o"` registry entry. -/
theorem resolve_prefers_exact_match_witness :
    ∃ d, scanExact modelsTable "gpt-4o" = some d ∧ d.Name = "gpt-4o" :=
  (resolve_prefers_exact_match "gpt-4o" (fun _ => "test-key")).2.2.2.2.1
    ⟨⟨"gpt-4o", Provider.openai⟩, by decide, rfl⟩

/-- If any requested model name fails to resolve, the resolution loop of
`main` exits with status 1. -/
theorem resolveModels_error_of_nil (env : Env) :
    ∀ (names : List String) (name : String), name ∈ names →
      createModel env name = none →
      resolveModels env names = .error (.exit 1) := by
  intro names
  induction names with
  | nil => intro name h; simp at h
  | cons n rest ih =>
    intro name hmem hnil
    cases hc : createModel env n with
    | none => simp [resolveModels, hc]
    | some m =>
      rcases List.mem_cons.mp hmem with heq | htail
      · subst heq
        rw [hc] at hnil
        cases hnil
      · have := ih name htail hnil
        simp [resolveModels, hc, this]

/-- C9: `createModel` is a total function communicating absence solely by a
nil return (in particular every name matched by neither scan, such as
`"unknown-model-xyz"`, yields nil for every environment, without raising);
and when any requested model name resolves to nil, `main` exits with status 1
— for every capability registry, so no test case has run or can influence the
outcome. -/
theorem resolve_nil_aborts_run (env : Env) (args : List String) (flag : String)
    (name : String) (h1 : args ≠ [])
    (h2 : name ∈ fields (String.intercalate " " args))
    (h3 : createModel env name = none) :
    (∀ caps, runMain env flag args caps = .error (.exit 1)) ∧
    (∀ nm, scanExact modelsTable nm = none → scanPrefixMatch modelsTable nm = none →
      createModel env nm = none) ∧
    (∀ e : Env, createModel e "unknown-model-xyz" = none) := by
  refine ⟨?_, ?_, fun e => rfl⟩
  · intro caps
    have hlen : ¬ (args.length < 1) := by
      cases args with
      | nil => exact absurd rfl h1
      | cons a t => simp
    have herr := resolveModels_error_of_nil env
      (fields (String.intercalate " " args)) name h2 h3
    simp [runMain, hlen, herr]
  · intro nm hex hpre
    simp [createModel, hex, hpre]

/-- C9 witness: requesting the single unknown model `"unknown-model-xyz"`
aborts the invocation with exit 1 before any test case runs. -/
theorem resolve_nil_aborts_run_witness :
    (∀ caps, runMain (fun _ => "") "" ["unknown-model-xyz"] caps =
      .error (.exit 1)) ∧
    (∀ nm, scanExact modelsTable nm = none → scanPrefixMatch modelsTable nm = none →
      createModel (fun _ => "") nm = none) ∧
    (∀ e : Env, createModel e "unknown-model-xyz" = none) :=
  resolve_nil_aborts_run (fun _ => "") ["unknown-model-xyz"] ""
    "unknown-model-xyz" (by simp) (by decide) (by decide)

/-- C2: For every non-empty model list and non-empty capability list, the
Runner's matrix is exactly the nested map of run functions in nested-loop
registry order: one row per model, one record per (model, test case) pair,
each record being the first component of the callable's return — so an error
returned by a callable never stops the loop, the next test case still runs,
and every model is attempted. -/
theorem runner_attempts_every_pair (models : List Model)
    (caps : List Capability) (_hm : models ≠ []) (_hc : caps ≠ []) :
    (runModels models caps).1 =
      models.map (fun m => caps.map (fun c => (c.RunFunction m).1)) ∧
    (runModels models caps).1.length = models.length ∧
    ∀ row ∈ (runModels models caps).1, row.length = caps.length := by
  refine ⟨runModels_matrix models caps, ?_, ?_⟩
  · rw [runModels_matrix]
    simp
  · intro row hrow
    rw [runModels_matrix] at hrow
    obtain ⟨m, _, hrow⟩ := List.mem_map.mp hrow
    subst hrow
    simp

/-- C2 witness: with an erroring first test case, the matrix still holds one
record per (model, test case) pair. -/
theorem runner_attempts_every_pair_witness :
    (runModels wModels wCaps).1 =
      wModels.map (fun m => wCaps.map (fun c => (c.RunFunction m).1)) ∧
    (runModels wModels wCaps).1.length = wModels.length :=
  ⟨(runner_attempts_every_pair wModels wCaps (by simp [wModels])
      (by simp [wCaps])).1,
   (runner_attempts_every_pair wModels wCaps (by simp [wModels])
      (by simp [wCaps])).2.1⟩

/-- C3: every ResultRecord produced by the modelled result-construction
sites — `CreateBenchResult`, `RunSimpleAgent`, and every path of
`RunConcurrentRuns` — satisfies `Success = true` iff `ErrorMessage = ""`,
provided a non-nil external error never carries an empty message (the Go
convention for `error.Error()`; the harness itself always supplies non-empty
messages). -/
theorem result_success_iff_empty_error :
    (∀ (tc : String) (model : Model) (durNs : Nat) (response : String)
        (err : Option String), err ≠ some "" →
      ((CreateBenchResult tc model durNs response err).Success = true ↔
        (CreateBenchResult tc model durNs response err).ErrorMessage = "")) ∧
    (∀ (model : Model) (durNs : Nat) (ext : ExecOutcome), ext.err ≠ some "" →
      ((RunSimpleAgent model durNs ext).1.Success = true ↔
        (RunSimpleAgent model durNs ext).1.ErrorMessage = "")) ∧
    (∀ (model : Model) (durNs : Nat) (ext : ConcExt),
      ((RunConcurrentRuns model durNs ext).1.Success = true ↔
        (RunConcurrentRuns model durNs ext).1.ErrorMessage = "")) := by
  refine ⟨?_, ?_, ?_⟩
  · intro tc model dur resp err h
    cases err with
    | none => simp [CreateBenchResult]
    | some e =>
      have he : e ≠ "" := fun hh => h (by rw [hh])
      simp [CreateBenchResult, he]
  · intro model dur ext h
    obtain ⟨resp, err⟩ := ext
    cases err with
    | some e =>
      have he : e ≠ "" := fun hh => h (by rw [hh])
      simp [RunSimpleAgent, he]
    | none =>
      by_cases hc : strContains (lowerStr resp) "canberra" = true
      · simp [RunSimpleAgent, hc]
      · have hmsg : ("expected response to contain \x27Canberra\x27, got: " ++ resp) ≠ "" :=
          str_append_ne_empty _ resp (by decide)
        simp [RunSimpleAgent, hc, hmsg]
  · intro model dur ext
    obtain ⟨s1, s2, s3, w1, w2, w3⟩ := ext
    have hstart : ∀ e : String, ("Failed to start run: " ++ e) ≠ "" :=
      fun e => str_append_ne_empty _ e (by decide)
    have hwait : ∀ e : String, ("Wait for run failed: " ++ e) ≠ "" :=
      fun e => str_append_ne_empty _ e (by decide)
    cases s1 with
    | some e => simp [RunConcurrentRuns, CreateBenchResult, hstart e]
    | none =>
    cases s2 with
    | some e => simp [RunConcurrentRuns, CreateBenchResult, hstart e]
    | none =>
    cases s3 with
    | some e => simp [RunConcurrentRuns, CreateBenchResult, hstart e]
    | none =>
    cases w1 with
    | error e => simp [RunConcurrentRuns, CreateBenchResult, hwait e]
    | ok r1 =>
    cases w2 with
    | error e => simp [RunConcurrentRuns, CreateBenchResult, hwait e]
    | ok r2 =>
    cases w3 with
    | error e => simp [RunConcurrentRuns, CreateBenchResult, hwait e]
    | ok r3 =>
      by_cases hf : ([r1, r2, r3].any fun r => strContains r "Nexxia") = true
      · cases hchk : checkResponses [r1, r2, r3] with
        | some msg =>
          have hne := checkResponses_ne_empty [r1, r2, r3] msg hchk
          simp [RunConcurrentRuns, CreateBenchResult, hf, hchk, hne]
        | none =>
          simp [RunConcurrentRuns, CreateBenchResult, hf, hchk]
      · have hmsg :
            ("Should have found a response with tool call result" : String) ≠ "" := by
          decide
        simp [RunConcurrentRuns, CreateBenchResult, hf, hmsg]

/-- C3 witness: a failed `CreateBenchResult`, a successful `RunSimpleAgent`
and a successful `RunConcurrentRuns` all satisfy the invariant. -/
theorem result_success_iff_empty_error_witness :
    ((CreateBenchResult "T" ⟨"m", .ollama⟩ 3 "resp" (some "bad")).Success = true ↔
      (CreateBenchResult "T" ⟨"m", .ollama⟩ 3 "resp" (some "bad")).ErrorMessage = "") ∧
    ((RunSimpleAgent ⟨"m", .ollama⟩ 3 ⟨"It is Canberra.", none⟩).1.Success = true ↔
      (RunSimpleAgent ⟨"m", .ollama⟩ 3 ⟨"It is Canberra.", none⟩).1.ErrorMessage = "") ∧
    ((RunConcurrentRuns ⟨"m", .ollama⟩ 3
        ⟨none, none, none, .ok "Nexxia", .ok "4", .ok "x"⟩).1.Success = true ↔
      (RunConcurrentRuns ⟨"m", .ollama⟩ 3
        ⟨none, none, none, .ok "Nexxia", .ok "4", .ok "x"⟩).1.ErrorMessage = "") :=
  ⟨result_success_iff_empty_error.1 "T" ⟨"m", .ollama⟩ 3 "resp" (some "bad")
      (by decide),
   result_success_iff_empty_error.2.1 ⟨"m", .ollama⟩ 3 ⟨"It is Canberra.", none⟩
      (by decide),
   result_success_iff_empty_error.2.2 ⟨"m", .ollama⟩ 3
      ⟨none, none, none, .ok "Nexxia", .ok "4", .ok "x"⟩⟩

/-- C5: for every (test case, model) pair, the report's status cell is
`✅ Success` when the matrix holds a record for the pair with success true,
`❌ Failure` when it holds one with success false, and `N/A` when no record
exists (with duplicate pairs, the Go-map overwrite leaves the last record);
the timing cell is the record's duration in seconds with exactly one decimal
digit and a trailing `s`, or `N/A` without a record; and the timing cells sit
in the row labelled with the test-case name suffixed `(timing)`, directly
under the status row. -/
theorem report_cells_match_records (results : List (List BenchResult))
    (tc m : String) :
    statusCell (buildGroups results) tc m =
      (match findRecordLast results tc m with
       | none => " | N/A"
       | some r => if r.Success then " | ✅ Success" else " | ❌ Failure") ∧
    timingCell (buildGroups results) tc m =
      (match findRecordLast results tc m with
       | none => " | N/A"
       | some r => " | " ++ fmtSeconds1 r.Duration) ∧
    (∀ r, findRecordLast results tc m = some r →
      ∃ n d : Nat, d < 10 ∧
        timingCell (buildGroups results) tc m =
          " | " ++ toString n ++ "." ++ toString d ++ "s") ∧
    (∀ mo co, tc ∈ co → ∃ pre post,
      reportBody results mo co =
        pre ++ (statusRow (buildGroups results) tc mo ++
          timingRow (buildGroups results) tc mo) ++ post) := by
  refine ⟨?_, ?_, ?_, ?_⟩
  · unfold statusCell
    rw [lookupGroups_buildGroups]
  · unfold timingCell
    rw [lookupGroups_buildGroups]
  · intro r hr
    refine ⟨durTenths r.Duration / 10, durTenths r.Duration % 10,
      Nat.mod_lt _ (by decide), ?_⟩
    unfold timingCell
    rw [lookupGroups_buildGroups, hr]
    simp [fmtSeconds1, String.append_assoc]
  · intro mo co htc
    obtain ⟨s, t, rfl⟩ := List.append_of_mem htc
    refine ⟨("| Capability" ++ String.join (mo.map (fun mm => " | " ++ mm)) ++
        " |\n" ++ ("|---" ++ String.join (mo.map (fun _ => "|---")) ++ "|\n")) ++
        String.join (s.map (fun tc' => statusRow (buildGroups results) tc' mo ++
          timingRow (buildGroups results) tc' mo)),
      String.join (t.map (fun tc' => statusRow (buildGroups results) tc' mo ++
        timingRow (buildGroups results) tc' mo)), ?_⟩
    simp only [reportBody, List.map_append, List.map_cons, join_append,
      join_cons, String.append_assoc]

/-- C5 witness: on the one-record matrix the status cell, the one-decimal
timing cell, and the placement of the two rows are all as stated. -/
theorem report_cells_match_records_witness :
    statusCell (buildGroups wResults) "A" "M" =
      (match findRecordLast wResults "A" "M" with
       | none => " | N/A"
       | some r => if r.Success then " | ✅ Success" else " | ❌ Failure") ∧
    (∃ n d : Nat, d < 10 ∧
      timingCell (buildGroups wResults) "A" "M" =
        " | " ++ toString n ++ "." ++ toString d ++ "s") ∧
    (∃ pre post,
      reportBody wResults ["M"] ["A"] =
        pre ++ (statusRow (buildGroups wResults) "A" ["M"] ++
          timingRow (buildGroups wResults) "A" ["M"]) ++ post) :=
  ⟨(report_cells_match_records wResults "A" "M").1,
   (report_cells_match_records wResults "A" "M").2.2.1
      ⟨"A", "M", true, 1440000000, 2, ""⟩ (by decide),
   (report_cells_match_records wResults "A" "M").2.2.2 ["M"] ["A"] (by decide)⟩

/-- C1 counterexample: two runs of the report generator on the same fixed
matrix and the same fixed timestamp, differing only in the Go-map iteration
order of the model keys (both orders are valid iteration orders of the same
key set), produce different Markdown even though the timestamp lines agree —
the column order is not the same on every run. -/
theorem report_order_nondeterminism_cex :
    ValidOrders c1Results ["M1", "M2"] ["A"] ∧
    ValidOrders c1Results ["M2", "M1"] ["A"] ∧
    generateComparisonReport c1Results "2026-01-01 00:00:00" ["M1", "M2"] ["A"] ≠
      generateComparisonReport c1Results "2026-01-01 00:00:00" ["M2", "M1"] ["A"] :=
  ⟨⟨by decide, by decide⟩, ⟨by decide, by decide⟩, by decide⟩

/-- C1 amended: any two valid Go-map iteration orders are permutations of
each other (the column and row-group name sets are fixed by the matrix), and
whenever the two runs iterate the derived model and test-case key sets in the
same order, the generated Markdown — timestamp line included, given the fixed
timestamp — is byte-identical. -/
theorem report_deterministic_given_iteration_order
    (results : List (List BenchResult)) (ts : String)
    (mo₁ co₁ mo₂ co₂ : List String)
    (h1 : ValidOrders results mo₁ co₁) (h2 : ValidOrders results mo₂ co₂) :
    mo₁.Perm mo₂ ∧ co₁.Perm co₂ ∧
    (mo₁ = mo₂ → co₁ = co₂ →
      generateComparisonReport results ts mo₁ co₁ =
        generateComparisonReport results ts mo₂ co₂) := by
  refine ⟨h1.1.trans h2.1.symm, h1.2.trans h2.2.symm, ?_⟩
  intro hmo hco
  rw [hmo, hco]

/-- C1 amended witness: two runs with the same iteration order produce
byte-identical Markdown. -/
theorem report_deterministic_given_iteration_order_witness :
    (["M1", "M2"] : List String).Perm ["M1", "M2"] ∧
    (["A"] : List String).Perm ["A"] ∧
    (["M1", "M2"] = ["M1", "M2"] → ["A"] = ["A"] →
      generateComparisonReport c1Results "2026-01-01 00:00:00" ["M1", "M2"] ["A"] =
        generateComparisonReport c1Results "2026-01-01 00:00:00" ["M1", "M2"] ["A"]) :=
  report_deterministic_given_iteration_order c1Results "2026-01-01 00:00:00"
    ["M1", "M2"] ["A"] ["M1", "M2"] ["A"]
    ⟨by decide, by decide⟩ ⟨by decide, by decide⟩

/-- C10: the Runner's console glyph is a function of the callable's returned
error value only, not of the record's success field; and on the
validation-failure path of `RunConcurrentRuns` (record with success false
returned with a nil error) the console prints the success glyph while the
report renders `❌ Failure` for the same (test case, model) pair. -/
theorem console_glyph_tracks_error_only :
    (∀ (c : Capability) (r₁ r₂ : BenchResult) (err : Option String),
      (consoleEntryFor c r₁ err).glyph = (consoleEntryFor c r₂ err).glyph) ∧
    (RunConcurrentRuns c10Model 1400000000 c10Ext).2 = none ∧
    (RunConcurrentRuns c10Model 1400000000 c10Ext).1.Success = false ∧
    (runModels [c10Model] [c10Cap]).2.map ConsoleEntry.glyph = ["✅ SUCCESS"] ∧
    statusCell (buildGroups (runModels [c10Model] [c10Cap]).1) "ConcurrentRuns"
      "gpt-4o" = " | ❌ Failure" :=
  ⟨fun _ _ _ _ => rfl, by decide, by decide, by decide, by decide⟩

end Aigentic
